import Mathlib

/-!
Shallow embedding of `laravel-maker/src/main.rs` (the dev-container Laravel
provisioning tool) and proofs of the specification's claims about it.

External effects (environment variables, the filesystem, `docker` process
invocations, `stdin`) are passed in explicitly: a lookup function models
`env::var`, `Option PathBuf` models the result of the existence probes,
an `Except`-valued parameter models each fallible external call, and a
function from the attempt counter models repeated status queries.  The
pure decision logic is translated line by line from the Rust source.
-/

namespace LaravelMaker

/-- Kind of an `io::Error` (only the kinds the program distinguishes). -/
inductive IoErrorKind where
  | NotFound
  | Other (s : String)
deriving DecidableEq

/-- The error taxonomy: Rust `enum AppError` in main.rs (lines 8–14).
`Io` carries the kind and message of the underlying `io::Error`. -/
inductive AppError where
  | Io (kind : IoErrorKind) (msg : String)
  | Interrupted (msg : String)
  | Validation (msg : String)
  | Docker (msg : String)
deriving DecidableEq

/-- Discriminator: is this result a `Validation` failure? -/
def isValidationError {α : Type} : Except AppError α → Bool
  | .error (.Validation _) => true
  | _ => false

/-- Rust `std::process::ExitStatus`, abstracted to its success flag plus its
`Debug` rendering (used by `format!("... Status: {:?}", status)`). -/
structure ExitStatus where
  success : Bool
  repr : String
deriving DecidableEq

/- Constants from main.rs lines 47–55. -/

def DEFAULT_CONTAINER_NAME : String := "dev_container"

def DEFAULT_SERVER_PORT : Nat := 8000

def DEFAULT_DB_PORT : Nat := 3306

def DEFAULT_DB_ROOT_PASSWORD : String := "password"

/-- Rust `struct AppConfig` (main.rs lines 57–64); the ports are `u16`. -/
structure AppConfig where
  php_container_name : String
  node_container_name : String
  db_root_password : String
  server_port : Nat
  db_port : Nat
deriving DecidableEq

/-- Rust `struct ProjectInput` (main.rs lines 66–72). -/
structure ProjectInput where
  project_name : String
  project_host : String
  project_path : String
  laravel_version : String
deriving DecidableEq

/-- Model of Rust `str::trim`: strip whitespace from both ends.  (Defined
over the character list so that it evaluates by kernel reduction; Lean's
own `String.trim` is byte-position based and does not reduce.) -/
def strTrim (s : String) : String :=
  String.mk (List.rdropWhile Char.isWhitespace (s.data.dropWhile Char.isWhitespace))

/-- Model of Rust `str::to_lowercase`, character by character. -/
def strToLower (s : String) : String :=
  String.mk (s.data.map Char.toLower)

/-- Model of Rust `str::parse::<u16>()`: an optional leading `+`, then one or
more ASCII digits, value at most 65535; anything else is a parse error. -/
def parseU16 (s : String) : Option Nat :=
  let digits := match s.data with
    | '+' :: rest => rest
    | cs => cs
  if digits.isEmpty then none
  else if digits.all Char.isDigit then
    if digits.foldl (fun acc c => acc * 10 + (c.toNat - 48)) 0 ≤ 65535 then
      some (digits.foldl (fun acc c => acc * 10 + (c.toNat - 48)) 0)
    else none
  else none

/-- Rust `fn get_app_config` (main.rs lines 193–275).  `envv` models
`env::var`: `none` stands for any lookup error.  Every setting falls back to
its compiled-in default when the variable is missing, empty after trimming,
or (for the ports) fails to parse as `u16`; the function itself never fails. -/
def get_app_config (envv : String → Option String) : AppConfig :=
  let container_name : String :=
    match envv "CONTAINER_NAME" with
    | some name => if strTrim name ≠ "" then strTrim name else DEFAULT_CONTAINER_NAME
    | none => DEFAULT_CONTAINER_NAME
  let server_port : Nat :=
    match envv "SERVER_PORT" with
    | some port_str =>
      match parseU16 (strTrim port_str) with
      | some port => port
      | none => DEFAULT_SERVER_PORT
    | none => DEFAULT_SERVER_PORT
  let db_port : Nat :=
    match envv "DB_PORT" with
    | some port_str =>
      match parseU16 (strTrim port_str) with
      | some port => port
      | none => DEFAULT_DB_PORT
    | none => DEFAULT_DB_PORT
  let php_container_name := container_name ++ "_php"
  let node_container_name := container_name ++ "_node"
  let db_root_password : String :=
    match envv "DB_ROOT_PASSWORD" with
    | some password => if strTrim password ≠ "" then strTrim password
      else DEFAULT_DB_ROOT_PASSWORD
    | none => DEFAULT_DB_ROOT_PASSWORD
  { php_container_name := php_container_name
    node_container_name := node_container_name
    db_root_password := db_root_password
    server_port := server_port
    db_port := db_port }

/-- A filesystem path as the program builds one: a directory prefix (`""` for
the current directory, `".."` for the parent) and a file name. -/
structure PathBuf where
  dir : String
  file : String
deriving DecidableEq

/-- Rust `Path::with_file_name`: replace the final component. -/
def with_file_name (p : PathBuf) (name : String) : PathBuf :=
  { dir := p.dir, file := name }

/-- The interactive accept/reject loop of `ensure_env_file_exists`
(main.rs lines 157–185).  `choices` is the sequence of lines read from
stdin; an exhausted list models end-of-file, where `read_line` keeps
returning an empty buffer, which the code treats as the default `Y`. -/
def config_accept_loop (env_path : PathBuf) : List String → Except AppError PathBuf
  | [] => .ok env_path
  | c :: rest =>
    let choice := strToLower (strTrim c)
    if choice = "" || choice = "y" then .ok env_path
    else if choice = "n" then
      .error (.Interrupted "O usuário optou por configurar o .env manualmente.")
    else config_accept_loop env_path rest

/-- Rust `fn ensure_env_file_exists` (main.rs lines 126–191).
`copy_result` models `fs::copy(example, ".env")`, carrying the kind and
message of the `io::Error` on failure. -/
def ensure_env_file_exists (env_path_option : Option PathBuf)
    (example_env_path_option : Option PathBuf)
    (copy_result : Except (IoErrorKind × String) Unit)
    (choices : List String) : Except AppError PathBuf :=
  match env_path_option with
  | some env_path => .ok env_path
  | none =>
    match example_env_path_option with
    | none =>
      .error (.Io .NotFound
        "Nem o .env, nem o . env.example foram encontrados. Verifique a estrutura do projeto.")
    | some example_env_path =>
      let env_path := with_file_name example_env_path ".env"
      match copy_result with
      | .ok _ => config_accept_loop env_path choices
      | .error e => .error (.Io e.1 e.2)

/-- Configuration resolution as `run` performs it (main.rs lines 77–84):
locate or create the `.env` file, then read the settings with defaults. -/
def resolve_config (env_path_option : Option PathBuf)
    (example_env_path_option : Option PathBuf)
    (copy_result : Except (IoErrorKind × String) Unit)
    (choices : List String)
    (envv : String → Option String) : Except AppError AppConfig :=
  match ensure_env_file_exists env_path_option example_env_path_option copy_result choices with
  | .error e => .error e
  | .ok _ => .ok (get_app_config envv)

/-! Project-identifier normalization: Rust `fn format_to_kebab_case`
(main.rs lines 397–417), modelled over `List Char`. -/

/-- The character filter of the first pass: Rust keeps
`c.is_ascii_alphanumeric() || c == '-'` (Lean's `Char.isAlphanum` is the
same ASCII-only test) and turns every other character into a space. -/
def isKeptChar (c : Char) : Bool := c.isAlphanum || c == '-'

/-- One character of the first mapping pass of `format_to_kebab_case`. -/
def sanitize (c : Char) : Char := if isKeptChar c then c else ' '

/-- Maximal runs of characters satisfying `p`, in order, empty runs dropped:
the list analogue of Rust `str::split_whitespace` (with `p` = not-whitespace),
also used to state the run structure of an arbitrary predicate. -/
def splitRuns (p : Char → Bool) : List Char → List (List Char)
  | [] => []
  | c :: rest =>
    if p c then (c :: rest.takeWhile p) :: splitRuns p (rest.dropWhile p)
    else splitRuns p rest
termination_by l => l.length
decreasing_by
  · have := (List.dropWhile_sublist (l := rest) p).length_le
    simp only [List.length_cons]
    omega
  · simp only [List.length_cons]
    omega

/-- Rust `Vec::join("-")` on character lists: the pieces separated by a
single `'-'`. -/
def joinDash : List (List Char) → List Char
  | [] => []
  | [w] => w
  | w :: ws => w ++ '-' :: joinDash ws

/-- Rust `result.contains("--")`: two adjacent dashes somewhere. -/
def containsDD : List Char → Bool
  | c :: c' :: rest => (c == '-' && c' == '-') || containsDD (c' :: rest)
  | _ => false

/-- Rust `str::replace("--", "-")`: one left-to-right pass replacing each
non-overlapping occurrence of `--` by `-`. -/
def replaceDD : List Char → List Char
  | [] => []
  | [c] => [c]
  | c :: c' :: rest =>
    if c == '-' && c' == '-' then '-' :: replaceDD rest
    else c :: replaceDD (c' :: rest)

theorem replaceDD_length_le : ∀ l : List Char, (replaceDD l).length ≤ l.length
  | [] => by simp [replaceDD]
  | [c] => by simp [replaceDD]
  | c :: c' :: rest => by
    simp only [replaceDD]
    split
    · have := replaceDD_length_le rest
      simp only [List.length_cons]
      omega
    · have := replaceDD_length_le (c' :: rest)
      simp only [List.length_cons] at *
      omega

theorem replaceDD_length_lt :
    ∀ l : List Char, containsDD l = true → (replaceDD l).length < l.length
  | [], h => by simp [containsDD] at h
  | [c], h => by simp [containsDD] at h
  | c :: c' :: rest, h => by
    simp only [replaceDD]
    split
    · have := replaceDD_length_le rest
      simp only [List.length_cons]
      omega
    · rename_i hguard
      have h' : containsDD (c' :: rest) = true := by
        simp only [containsDD, hguard, Bool.false_or] at h
        exact h
      have := replaceDD_length_lt (c' :: rest) h'
      simp only [List.length_cons] at *
      omega

/-- The Rust `while result.contains("--") { result = result.replace("--", "-") }`
loop (main.rs lines 412–414). -/
def collapseLoop (l : List Char) : List Char :=
  if h : containsDD l = true then collapseLoop (replaceDD l) else l
termination_by l.length
decreasing_by exact replaceDD_length_lt l h

/-- Rust `str::trim_matches('-')`: strip dashes from both ends. -/
def trimDashes (l : List Char) : List Char :=
  ((l.dropWhile (· == '-')).reverse.dropWhile (· == '-')).reverse

/-- Rust `split_whitespace` over the sanitized text. -/
def splitWsPieces (l : List Char) : List (List Char) :=
  splitRuns (fun c => !c.isWhitespace) l

/-- Rust `fn format_to_kebab_case` (main.rs lines 397–417) over `List Char`:
lowercase, replace non-kept characters by spaces, split on whitespace and
join with dashes, collapse repeated dashes, trim boundary dashes. -/
def kebabChars (l : List Char) : List Char :=
  trimDashes (collapseLoop (joinDash (splitWsPieces ((l.map Char.toLower).map sanitize))))

/-- Rust `fn format_to_kebab_case` lifted to `String`. -/
def format_to_kebab_case (input : String) : String :=
  String.mk (kebabChars input.data)

/-- Modelled from the spec: the claimed normal form — the maximal
alphanumeric runs of the lowercased input, joined by single hyphens, with
the boundary (leading/trailing) non-alphanumeric runs dropped.  Stated from
the spec's words to be compared with `kebabChars`. -/
def kebabSpec (l : List Char) : List Char :=
  joinDash (splitRuns Char.isAlphanum (l.map Char.toLower))

/-- Is the first character a hyphen?  (`headIsDash l.reverse` asks about the
last one.) -/
def headIsDash : List Char → Bool
  | [] => false
  | c :: _ => c == '-'

/-! Container readiness: the opening of `fn execute_laravel_creation`
(main.rs lines 476–549).  A status query (`check_container_is_running`) is
modelled as `Except String Bool`: `.ok running?` when `docker ps` completed
and its stdout was read, `.error e` when launching or reading failed. -/

instance {ε α : Type} [DecidableEq ε] [DecidableEq α] : DecidableEq (Except ε α) := fun
  | .ok a, .ok b =>
    if h : a = b then .isTrue (by rw [h]) else .isFalse (by intro hh; cases hh; exact h rfl)
  | .ok _, .error _ => .isFalse (by intro hh; cases hh)
  | .error _, .ok _ => .isFalse (by intro hh; cases hh)
  | .error a, .error b =>
    if h : a = b then .isTrue (by rw [h]) else .isFalse (by intro hh; cases hh; exact h rfl)

/-- What the readiness step did: whether `docker compose up -d` was invoked,
how many status queries and sleeps the poll loop performed, and the result. -/
structure ReadyOutcome where
  upInvoked : Bool
  statusPolls : Nat
  sleeps : Nat
  result : Except AppError Unit
deriving DecidableEq

/-- The `for attempt in 1..=max_attempts` poll loop (main.rs lines 519–547):
sleep, re-query; success breaks out, exhaustion at `attempt == max_attempts`
and a failed query each abort with a `Docker` error.  Returns the number of
status queries performed (one sleep precedes each) and the result. -/
def pollLoop (poll : Nat → Except String Bool) (php_container_name : String)
    (max_attempts : Nat) (attempt : Nat) : Nat × Except AppError Unit :=
  if h : max_attempts < attempt then (0, .ok ())
  else
    match poll attempt with
    | .ok true => (1, .ok ())
    | .ok false =>
      if attempt = max_attempts then
        (1, .error (.Docker ("O contêiner PHP '" ++ php_container_name ++
          "' falhou ao iniciar após " ++ toString max_attempts ++ " tentativas.")))
      else
        let r := pollLoop poll php_container_name max_attempts (attempt + 1)
        (r.1 + 1, r.2)
    | .error e =>
      (1, .error (.Docker ("Falha ao verificar o status do contêiner: " ++ e)))
termination_by max_attempts + 1 - attempt
decreasing_by omega

/-- The readiness portion of `fn execute_laravel_creation` (main.rs lines
491–549).  `initial_check` is the first status query; any outcome other than
`.ok true` (the Rust `_` arm) goes to the start path: invoke
`docker compose up -d` (`up_result`: launch error or completed with success
flag), then poll up to 3 attempts with a 3-second sleep before each query. -/
def ensure_php_container_ready (php_container_name : String)
    (initial_check : Except String Bool)
    (up_result : Except String Bool)
    (poll : Nat → Except String Bool) : ReadyOutcome :=
  match initial_check with
  | .ok true => { upInvoked := false, statusPolls := 0, sleeps := 0, result := .ok () }
  | _ =>
    match up_result with
    | .error e =>
      { upInvoked := true, statusPolls := 0, sleeps := 0,
        result := .error (.Docker ("Falha ao executar 'docker compose up -d': " ++ e)) }
    | .ok false =>
      { upInvoked := true, statusPolls := 0, sleeps := 0,
        result := .error (.Docker
          "Falha ao iniciar o ambiente Docker Compose. Verifique as configurações.") }
    | .ok true =>
      let r := pollLoop poll php_container_name 3 1
      { upInvoked := true, statusPolls := r.1, sleeps := r.1, result := r.2 }

/-! Config patching: the `.env` substitution loop of
`fn configure_and_initialize_laravel` (main.rs lines 687–725). -/

/-- The seven ordered sed substitution rules (main.rs lines 687–701). -/
def env_updates (input : ProjectInput) (config : AppConfig) : List String :=
  [ "s/APP_URL=http:\\/\\/localhost/APP_URL=http:\\/\\/" ++ input.project_host ++ "/",
    "s/DB_CONNECTION=sqlite/DB_CONNECTION=mariadb/",
    "s/# DB_PORT=3306/DB_PORT=" ++ toString config.db_port ++ "/",
    "s/# DB_DATABASE=laravel/DB_DATABASE=" ++ input.project_name ++ "/",
    "s/# DB_HOST=127.0.0.1/DB_HOST=mariadb/",
    "s/# DB_USERNAME=root/DB_USERNAME=root/",
    "s/# DB_PASSWORD=/DB_PASSWORD=" ++ config.db_root_password ++ "/" ]

/-- The shell command built for one rule (main.rs lines 704–707). -/
def sed_command (project_name update : String) : String :=
  "cd /var/www/html/" ++ project_name ++ " && sed -i '" ++ update ++ "' .env"

/-- Trace of the substitution loop: the rules whose sed invocation was run,
the rules whose invocation reported success (and are therefore applied to the
target file, never undone), and the overall result. -/
structure PatchOutcome where
  attempted : List String
  applied : List String
  result : Except AppError Unit
deriving DecidableEq

/-- The `for update in env_updates` loop (main.rs lines 703–725).  `exec`
models `docker exec -it <php> sh -c <command>`: `.error e` a launch failure
(the `map_err` arm), `.ok st` a completed run with exit status `st`.  The
loop stops at the first invocation that fails to launch or exits non-success,
returning a `Docker` error that names the failing rule. -/
def apply_env_updates (exec : String → Except String ExitStatus)
    (project_name : String) : List String → PatchOutcome
  | [] => { attempted := [], applied := [], result := .ok () }
  | update :: rest =>
    match exec (sed_command project_name update) with
    | .error e =>
      { attempted := [update], applied := [],
        result := .error (.Docker ("Falha ao executar sed para .env: " ++ e)) }
    | .ok st =>
      if st.success then
        let o := apply_env_updates exec project_name rest
        { attempted := update :: o.attempted, applied := update :: o.applied,
          result := o.result }
      else
        { attempted := [update], applied := [],
          result := .error (.Docker ("Falha ao atualizar o .env com: '" ++ update ++
            "'. Status: " ++ st.repr)) }

/-! Virtual-host generation: `fn create_vhost_file` (main.rs lines 432–474). -/

/-- The rendered vhost file content (main.rs lines 449–468): the Rust raw
string template with `project_host` substituted once and `project_name`
substituted twice. -/
def vhost_content (input : ProjectInput) : String :=
  "<VirtualHost *:80>\n    # Nome do host que será usado (ex: minha-app.test)\n    ServerName "
    ++ input.project_host
    ++ "\n\n    # Diretório raiz do projeto Laravel (montado em /var/www/html/)\n    DocumentRoot /var/www/html/"
    ++ input.project_name
    ++ "/public\n\n    <Directory /var/www/html/"
    ++ input.project_name
    ++ "/public>\n        AllowOverride All\n         Require all granted\n        DirectoryIndex index.php index.html\n    </Directory>\n\n    <FilesMatch \\.php$>\n        SetHandler \"proxy:fcgi://php:9000\"\n    </FilesMatch>\n</VirtualHost>"

/-- Does `pat` stand at the very start of `l`? -/
def leadsWith : List Char → List Char → Bool
  | [], _ => true
  | _ :: _, [] => false
  | a :: as, b :: bs => a == b && leadsWith as bs

/-- The number of positions of `l` at which `pat` occurs as a contiguous
block (counting every start index, overlaps included). -/
def countOccs (pat l : List Char) : Nat :=
  ((List.range (l.length + 1)).filter (fun i => leadsWith pat (l.drop i))).length

/-- Rust `str::contains(pat)`: `pat` occurs somewhere in `l` as a contiguous
substring. -/
def containsSub (l pat : List Char) : Bool :=
  (List.range (l.length + 1)).any (fun i => leadsWith pat (l.drop i))

/-! Host-alias registration: `fn update_etc_hosts` (main.rs lines 606–654). -/

/-- What the registration step did: whether the privilege-escalated `sudo`
append was invoked (the only write path), and the result. -/
structure HostsOutcome where
  sudoInvoked : Bool
  result : Except AppError Unit
deriving DecidableEq

/-- The write path of `update_etc_hosts` (main.rs lines 635–653): run the
escalated shell append; a launch failure surfaces as `Io`, a non-success
exit as `Validation`. -/
def etc_hosts_write (sudo_status : Except (IoErrorKind × String) ExitStatus) : HostsOutcome :=
  match sudo_status with
  | .error e => { sudoInvoked := true, result := .error (.Io e.1 e.2) }
  | .ok st =>
    if st.success then { sudoInvoked := true, result := .ok () }
    else
      { sudoInvoked := true,
        result := .error (.Validation
          ("Falha ao executar 'sudo'. Verifique se você digitou a senha corretamente. Status: "
            ++ st.repr)) }

/-- Rust `fn update_etc_hosts` (main.rs lines 606–654).  `read_result`
models `fs::read_to_string("/etc/hosts")`.  When the read succeeds and the
content contains the host as a substring, the function returns success
without invoking the write path; a failed read falls through to the write
path. -/
def update_etc_hosts (input : ProjectInput)
    (read_result : Except String String)
    (sudo_status : Except (IoErrorKind × String) ExitStatus) : HostsOutcome :=
  match read_result with
  | .ok content =>
    if containsSub content.data input.project_host.data then
      { sudoInvoked := false, result := .ok () }
    else etc_hosts_write sudo_status
  | .error _ => etc_hosts_write sudo_status

/-! Character-class facts used by the normalization proofs. -/

theorem char_isUpper_iff (c : Char) : c.isUpper = true ↔ 65 ≤ c.toNat ∧ c.toNat ≤ 90 := by
  simp [Char.isUpper, UInt32.le_def, BitVec.le_def, Char.toNat, UInt32.toNat]

theorem char_toNat_ofNat (n : Nat) (h : n < 55296) : (Char.ofNat n).toNat = n := by
  rw [Char.ofNat, dif_pos (Or.inl h)]
  rfl

theorem char_toLower_of_not_upper (c : Char) (h : ¬ (65 ≤ c.toNat ∧ c.toNat ≤ 90)) :
    c.toLower = c := by
  rw [Char.toLower, if_neg h]

theorem char_toLower_not_upper (c : Char) : (c.toLower).isUpper = false := by
  rw [Char.toLower]
  by_cases h : 65 ≤ c.toNat ∧ c.toNat ≤ 90
  · rw [if_pos h]
    have hv : (Char.ofNat (c.toNat + 32)).toNat = c.toNat + 32 := char_toNat_ofNat _ (by omega)
    rw [Bool.eq_false_iff]
    intro hu
    rw [char_isUpper_iff] at hu
    omega
  · rw [if_neg h]
    rw [Bool.eq_false_iff]
    intro hu
    rw [char_isUpper_iff] at hu
    exact h hu

theorem char_toLower_idem (c : Char) : c.toLower.toLower = c.toLower := by
  apply char_toLower_of_not_upper
  intro h
  have h2 := char_toLower_not_upper c
  rw [Bool.eq_false_iff] at h2
  exact h2 ((char_isUpper_iff _).2 h)

theorem char_ws_not_alnum (c : Char) (h : c.isWhitespace = true) :
    c.isAlphanum = false := by
  simp only [Char.isWhitespace, Bool.or_eq_true, decide_eq_true_eq] at h
  rcases h with ((h | h) | h) | h <;> subst h <;> decide

theorem char_alnum_not_upper_good (c : Char) (ha : c.isAlphanum = true)
    (hu : c.isUpper = false) : ((c.isLower || c.isDigit) || c == '-') = true := by
  simp only [Char.isAlphanum, Char.isAlpha, hu, Bool.false_or, Bool.or_eq_true] at ha
  rcases ha with h | h <;> simp [h]

/-! Structure of `splitRuns`. -/

theorem splitRuns_nil (p : Char → Bool) : splitRuns p [] = [] := by
  rw [splitRuns]

theorem splitRuns_cons_pos (p : Char → Bool) (c : Char) (l : List Char) (h : p c = true) :
    splitRuns p (c :: l) = (c :: l.takeWhile p) :: splitRuns p (l.dropWhile p) := by
  rw [splitRuns, if_pos h]

theorem splitRuns_cons_neg (p : Char → Bool) (c : Char) (l : List Char) (h : p c = false) :
    splitRuns p (c :: l) = splitRuns p l := by
  rw [splitRuns, if_neg (by simp [h])]

theorem splitRuns_pieces (p : Char → Bool) :
    ∀ l : List Char, ∀ r ∈ splitRuns p l, r ≠ [] ∧ ∀ c ∈ r, p c = true ∧ c ∈ l
  | [] => by simp [splitRuns_nil]
  | a :: rest => by
    by_cases h : p a = true
    · rw [splitRuns_cons_pos p a rest h]
      intro r hr
      rcases List.mem_cons.1 hr with hEq | hMem
      · subst hEq
        refine ⟨by simp, ?_⟩
        intro c hc
        rcases List.mem_cons.1 hc with hc1 | hc2
        · subst hc1
          exact ⟨h, List.mem_cons_self _ _⟩
        · exact ⟨List.mem_takeWhile_imp hc2,
            List.mem_cons_of_mem _ ((List.takeWhile_sublist p).subset hc2)⟩
      · have IH := splitRuns_pieces p (rest.dropWhile p) r hMem
        refine ⟨IH.1, fun c hc => ⟨(IH.2 c hc).1, ?_⟩⟩
        exact List.mem_cons_of_mem _ ((List.dropWhile_sublist p).subset (IH.2 c hc).2)
    · rw [splitRuns_cons_neg p a rest (by simpa using h)]
      intro r hr
      have IH := splitRuns_pieces p rest r hr
      exact ⟨IH.1, fun c hc => ⟨(IH.2 c hc).1, List.mem_cons_of_mem _ (IH.2 c hc).2⟩⟩
termination_by l => l.length
decreasing_by
  · have := (List.dropWhile_sublist (l := rest) p).length_le
    simp only [List.length_cons]
    omega
  · simp only [List.length_cons]
    omega

theorem takeWhile_append_sep (p : Char → Bool) (d : Char) (hd : p d = false) :
    ∀ (a b : List Char), List.takeWhile p (a ++ d :: b) = a.takeWhile p
  | [], b => by simp [List.takeWhile_cons, hd]
  | x :: a', b => by
    cases hx : p x with
    | false => simp [List.takeWhile_cons, hx]
    | true => simp [List.takeWhile_cons, hx, takeWhile_append_sep p d hd a' b]

theorem dropWhile_append_sep (p : Char → Bool) (d : Char) (hd : p d = false) :
    ∀ (a b : List Char), List.dropWhile p (a ++ d :: b) = a.dropWhile p ++ d :: b
  | [], b => by simp [List.dropWhile_cons, hd]
  | x :: a', b => by
    cases hx : p x with
    | false => simp [List.dropWhile_cons, hx]
    | true => simp [List.dropWhile_cons, hx, dropWhile_append_sep p d hd a' b]

theorem splitRuns_append_sep (p : Char → Bool) (d : Char) (hd : p d = false) :
    ∀ (a b : List Char), splitRuns p (a ++ d :: b) = splitRuns p a ++ splitRuns p b
  | [], b => by
    rw [List.nil_append, splitRuns_cons_neg p d b hd, splitRuns_nil, List.nil_append]
  | x :: a', b => by
    cases hx : p x with
    | false =>
      rw [List.cons_append, splitRuns_cons_neg p x _ hx, splitRuns_cons_neg p x a' hx]
      exact splitRuns_append_sep p d hd a' b
    | true =>
      rw [List.cons_append, splitRuns_cons_pos p x _ hx, splitRuns_cons_pos p x a' hx,
        takeWhile_append_sep p d hd a' b, dropWhile_append_sep p d hd a' b,
        splitRuns_append_sep p d hd (a'.dropWhile p) b]
      simp
termination_by a _ => a.length
decreasing_by
  · simp only [List.length_cons]
    omega
  · have := (List.dropWhile_sublist (l := a') p).length_le
    simp only [List.length_cons]
    omega

theorem splitRuns_all_pos (p : Char → Bool) (l : List Char) (hne : l ≠ [])
    (hall : ∀ c ∈ l, p c = true) : splitRuns p l = [l] := by
  cases l with
  | nil => exact absurd rfl hne
  | cons c l' =>
    rw [splitRuns_cons_pos p c l' (hall c (List.mem_cons_self _ _))]
    have ht : l'.takeWhile p = l' :=
      List.takeWhile_eq_self_iff.2 (fun x hx => hall x (List.mem_cons_of_mem _ hx))
    have hdw : l'.dropWhile p = [] :=
      List.dropWhile_eq_nil_iff.2 (fun x hx => hall x (List.mem_cons_of_mem _ hx))
    rw [ht, hdw, splitRuns_nil]

theorem splitRuns_eq_nil (p : Char → Bool) :
    ∀ l : List Char, (∀ c ∈ l, p c = false) → splitRuns p l = []
  | [] => fun _ => splitRuns_nil p
  | c :: rest => fun h => by
    rw [splitRuns_cons_neg p c rest (h c (List.mem_cons_self _ _))]
    exact splitRuns_eq_nil p rest (fun x hx => h x (List.mem_cons_of_mem _ hx))

theorem splitRuns_nil_all (p : Char → Bool) :
    ∀ l : List Char, splitRuns p l = [] → ∀ c ∈ l, p c = false
  | [] => by simp
  | c :: rest => fun h => by
    by_cases hc : p c = true
    · rw [splitRuns_cons_pos p c rest hc] at h
      exact absurd h (by simp)
    · intro x hx
      rcases List.mem_cons.1 hx with h1 | h2
      · subst h1
        simpa using hc
      · rw [splitRuns_cons_neg p c rest (by simpa using hc)] at h
        exact splitRuns_nil_all p rest h x h2

theorem splitRuns_append_allneg (p : Char → Bool) (a b : List Char)
    (h : ∀ c ∈ b, p c = false) : splitRuns p (a ++ b) = splitRuns p a := by
  cases b with
  | nil => rw [List.append_nil]
  | cons d b' =>
    rw [splitRuns_append_sep p d (h d (List.mem_cons_self _ _)) a b',
      splitRuns_eq_nil p b' (fun x hx => h x (List.mem_cons_of_mem _ hx)), List.append_nil]

theorem splitRuns_map (p : Char → Bool) (g : Char → Char)
    (hid : ∀ c, p c = true → g c = c) (hp : ∀ c, p (g c) = p c) :
    ∀ l : List Char, splitRuns p (l.map g) = splitRuns p l
  | [] => by simp [splitRuns_nil]
  | c :: rest => by
    have hpg : p ∘ g = p := funext hp
    cases hc : p c with
    | false =>
      rw [List.map_cons, splitRuns_cons_neg p (g c) _ (by rw [hp]; exact hc),
        splitRuns_cons_neg p c rest hc]
      exact splitRuns_map p g hid hp rest
    | true =>
      rw [List.map_cons, splitRuns_cons_pos p (g c) _ (by rw [hp]; exact hc),
        splitRuns_cons_pos p c rest hc, hid c hc, List.takeWhile_map,
        List.dropWhile_map, hpg,
        splitRuns_map p g hid hp (rest.dropWhile p)]
      congr 2
      exact ((List.map_congr_left fun x hx =>
        hid x (List.mem_takeWhile_imp hx)).trans (List.map_id _))
termination_by l => l.length
decreasing_by
  · simp only [List.length_cons]
    omega
  · have := (List.dropWhile_sublist (l := rest) p).length_le
    simp only [List.length_cons]
    omega

theorem joinDash_cons_of_ne_nil (w : List Char) (ws : List (List Char)) (h : ws ≠ []) :
    joinDash (w :: ws) = w ++ '-' :: joinDash ws := by
  cases ws with
  | nil => exact absurd rfl h
  | cons w2 ws' => rfl

theorem mem_joinDash : ∀ (rs : List (List Char)) (c : Char), c ∈ joinDash rs →
    c = '-' ∨ ∃ r, r ∈ rs ∧ c ∈ r
  | [] => by simp [joinDash]
  | [r] => fun c hc => by
    refine Or.inr ⟨r, by simp, ?_⟩
    simpa [joinDash] using hc
  | r :: r2 :: rs => fun c hc => by
    rw [joinDash_cons_of_ne_nil r (r2 :: rs) (by simp)] at hc
    rcases List.mem_append.1 hc with h | h
    · exact Or.inr ⟨r, List.mem_cons_self _ _, h⟩
    · rcases List.mem_cons.1 h with h1 | h2
      · exact Or.inl h1
      · rcases mem_joinDash (r2 :: rs) c h2 with h3 | ⟨r', hr', hcr'⟩
        · exact Or.inl h3
        · exact Or.inr ⟨r', List.mem_cons_of_mem _ hr', hcr'⟩

theorem joinDash_ne_nil : ∀ rs : List (List Char), rs ≠ [] → (∀ r ∈ rs, r ≠ []) →
    joinDash rs ≠ []
  | [] => fun h _ => absurd rfl h
  | [r] => fun _ h => by simpa [joinDash] using h r (by simp)
  | r :: r2 :: rs => fun _ _ => by
    rw [joinDash_cons_of_ne_nil r (r2 :: rs) (by simp)]
    simp

theorem splitRuns_alnum_join_ws :
    ∀ x : List Char, splitRuns Char.isAlphanum (joinDash (splitWsPieces x))
      = splitRuns Char.isAlphanum x
  | [] => by simp [splitWsPieces, splitRuns_nil, joinDash]
  | c :: x' => by
    by_cases hq : (!c.isWhitespace) = true
    · rw [show splitWsPieces (c :: x') = splitRuns (fun ch => !ch.isWhitespace) (c :: x') from rfl,
        splitRuns_cons_pos _ c x' hq]
      cases hrest : splitRuns (fun ch => !ch.isWhitespace)
          (x'.dropWhile (fun ch => !ch.isWhitespace)) with
      | nil =>
        have hall : ∀ y ∈ x'.dropWhile (fun ch => !ch.isWhitespace),
            Char.isAlphanum y = false := by
          intro y hy
          have hqy := splitRuns_nil_all _ _ hrest y hy
          exact char_ws_not_alnum y (by simpa using hqy)
        calc splitRuns Char.isAlphanum
              (joinDash [c :: x'.takeWhile (fun ch => !ch.isWhitespace)])
            = splitRuns Char.isAlphanum
                (c :: x'.takeWhile (fun ch => !ch.isWhitespace)) := by
              simp [joinDash]
          _ = splitRuns Char.isAlphanum
                ((c :: x'.takeWhile (fun ch => !ch.isWhitespace)) ++
                  x'.dropWhile (fun ch => !ch.isWhitespace)) :=
              (splitRuns_append_allneg _ _ _ hall).symm
          _ = splitRuns Char.isAlphanum (c :: x') := by
              rw [List.cons_append, List.takeWhile_append_dropWhile]
      | cons r rs =>
        rw [joinDash_cons_of_ne_nil _ _ (by simp),
          splitRuns_append_sep Char.isAlphanum '-' (by decide), ← hrest]
        have hIH := splitRuns_alnum_join_ws (x'.dropWhile (fun ch => !ch.isWhitespace))
        rw [show splitWsPieces (x'.dropWhile (fun ch => !ch.isWhitespace))
            = splitRuns (fun ch => !ch.isWhitespace)
                (x'.dropWhile (fun ch => !ch.isWhitespace)) from rfl] at hIH
        rw [hIH]
        have hdwne : x'.dropWhile (fun ch => !ch.isWhitespace) ≠ [] := by
          intro h0
          rw [h0, splitRuns_nil] at hrest
          exact absurd hrest (by simp)
        obtain ⟨d, dw', hdd⟩ : ∃ d dw',
            x'.dropWhile (fun ch => !ch.isWhitespace) = d :: dw' := by
          cases hx : x'.dropWhile (fun ch => !ch.isWhitespace) with
          | nil => exact absurd hx hdwne
          | cons d dw' => exact ⟨d, dw', rfl⟩
        have hhead := List.head_dropWhile_not (fun ch => !ch.isWhitespace) x' hdwne
        simp only [hdd, List.head_cons] at hhead
        have hd_alnum : Char.isAlphanum d = false :=
          char_ws_not_alnum d (by simpa using hhead)
        calc splitRuns Char.isAlphanum (c :: x'.takeWhile (fun ch => !ch.isWhitespace)) ++
              splitRuns Char.isAlphanum (x'.dropWhile (fun ch => !ch.isWhitespace))
            = splitRuns Char.isAlphanum (c :: x'.takeWhile (fun ch => !ch.isWhitespace)) ++
              splitRuns Char.isAlphanum dw' := by
              rw [hdd, splitRuns_cons_neg _ d dw' hd_alnum]
          _ = splitRuns Char.isAlphanum
                ((c :: x'.takeWhile (fun ch => !ch.isWhitespace)) ++ d :: dw') :=
              (splitRuns_append_sep _ d hd_alnum _ _).symm
          _ = splitRuns Char.isAlphanum (c :: x') := by
              rw [← hdd, List.cons_append, List.takeWhile_append_dropWhile]
    · have hws : c.isWhitespace = true := by simpa using hq
      rw [show splitWsPieces (c :: x') = splitRuns (fun ch => !ch.isWhitespace) (c :: x') from rfl,
        splitRuns_cons_neg _ c x' (by simpa using hq)]
      have hIH := splitRuns_alnum_join_ws x'
      rw [show splitWsPieces x' = splitRuns (fun ch => !ch.isWhitespace) x' from rfl] at hIH
      rw [hIH, splitRuns_cons_neg Char.isAlphanum c x' (char_ws_not_alnum c hws)]
termination_by x => x.length
decreasing_by
  · simp only [List.length_cons]
    exact Nat.lt_succ_of_le (List.dropWhile_sublist _).length_le
  · simp only [List.length_cons]
    omega

theorem ddGuard_eq (c c' : Char) (hg : (c == '-' && c' == '-') = true) :
    c = '-' ∧ c' = '-' := by
  simp only [Bool.and_eq_true, beq_iff_eq] at hg
  exact hg

theorem takeWhile_replaceDD (p : Char → Bool) (hd : p '-' = false) :
    ∀ w : List Char, (replaceDD w).takeWhile p = w.takeWhile p
  | [] => rfl
  | [c] => rfl
  | c :: c' :: rest => by
    rw [replaceDD]
    split
    · rename_i hg
      obtain ⟨rfl, rfl⟩ := ddGuard_eq _ _ hg
      rw [List.takeWhile_cons_of_neg (by simp [hd]), List.takeWhile_cons_of_neg (by simp [hd])]
    · cases hc : p c with
      | false =>
        rw [List.takeWhile_cons_of_neg (by simp [hc]), List.takeWhile_cons_of_neg (by simp [hc])]
      | true =>
        rw [List.takeWhile_cons_of_pos (by simp [hc]), List.takeWhile_cons_of_pos (by simp [hc]),
          takeWhile_replaceDD p hd (c' :: rest)]

theorem dropWhile_replaceDD (p : Char → Bool) (hd : p '-' = false) :
    ∀ w : List Char, (replaceDD w).dropWhile p = replaceDD (w.dropWhile p)
  | [] => rfl
  | [c] => by
    cases hc : p c with
    | true =>
      rw [show replaceDD [c] = [c] from rfl, List.dropWhile_cons_of_pos (by simp [hc])]
      rfl
    | false =>
      rw [show replaceDD [c] = [c] from rfl, List.dropWhile_cons_of_neg (by simp [hc])]
      rfl
  | c :: c' :: rest => by
    rw [replaceDD]
    split
    · rename_i hg
      obtain ⟨rfl, rfl⟩ := ddGuard_eq _ _ hg
      rw [List.dropWhile_cons_of_neg (by simp [hd]), List.dropWhile_cons_of_neg (by simp [hd]),
        replaceDD, if_pos (by decide)]
    · rename_i hg
      cases hc : p c with
      | true =>
        rw [List.dropWhile_cons_of_pos (by simp [hc]), List.dropWhile_cons_of_pos (by simp [hc])]
        exact dropWhile_replaceDD p hd (c' :: rest)
      | false =>
        rw [List.dropWhile_cons_of_neg (by simp [hc]), List.dropWhile_cons_of_neg (by simp [hc]),
          replaceDD, if_neg hg]

theorem splitRuns_replaceDD (p : Char → Bool) (hd : p '-' = false) :
    ∀ w : List Char, splitRuns p (replaceDD w) = splitRuns p w
  | [] => rfl
  | [c] => rfl
  | c :: c' :: rest => by
    rw [replaceDD]
    split
    · rename_i hg
      obtain ⟨rfl, rfl⟩ := ddGuard_eq _ _ hg
      rw [splitRuns_cons_neg p _ _ hd, splitRuns_cons_neg p _ _ hd, splitRuns_cons_neg p _ _ hd]
      exact splitRuns_replaceDD p hd rest
    · cases hc : p c with
      | false =>
        rw [splitRuns_cons_neg p _ _ hc, splitRuns_cons_neg p _ _ hc]
        exact splitRuns_replaceDD p hd (c' :: rest)
      | true =>
        rw [splitRuns_cons_pos p _ _ hc, splitRuns_cons_pos p _ _ hc,
          takeWhile_replaceDD p hd (c' :: rest), dropWhile_replaceDD p hd (c' :: rest),
          splitRuns_replaceDD p hd ((c' :: rest).dropWhile p)]
termination_by w => w.length
decreasing_by
  all_goals simp only [List.length_cons]
  all_goals try omega
  all_goals
    have := (List.dropWhile_sublist (l := c' :: rest) p).length_le
    simp only [List.length_cons] at this
    omega

theorem mem_replaceDD : ∀ (w : List Char) (c : Char), c ∈ replaceDD w → c ∈ w
  | [] => by simp [replaceDD]
  | [a] => by simp [replaceDD]
  | a :: b :: rest => fun c hc => by
    rw [replaceDD] at hc
    split at hc
    · rename_i hg
      obtain ⟨rfl, rfl⟩ := ddGuard_eq _ _ hg
      rcases List.mem_cons.1 hc with h1 | h2
      · subst h1
        exact List.mem_cons_self _ _
      · exact List.mem_cons_of_mem _ (List.mem_cons_of_mem _ (mem_replaceDD rest c h2))
    · rcases List.mem_cons.1 hc with h1 | h2
      · subst h1
        exact List.mem_cons_self _ _
      · exact List.mem_cons_of_mem _ (mem_replaceDD (b :: rest) c h2)

theorem collapseLoop_of_pos (l : List Char) (h : containsDD l = true) :
    collapseLoop l = collapseLoop (replaceDD l) := by
  rw [collapseLoop]
  rw [dif_pos h]

theorem collapseLoop_of_neg (l : List Char) (h : containsDD l = false) :
    collapseLoop l = l := by
  rw [collapseLoop]
  rw [dif_neg (by simp [h])]

theorem containsDD_cons_of_ne (c : Char) (l : List Char) (h : c ≠ '-') :
    containsDD (c :: l) = containsDD l := by
  cases l with
  | nil => rfl
  | cons y t =>
    have hb : (c == '-') = false := beq_eq_false_iff_ne.mpr h
    simp [containsDD, hb]

theorem containsDD_false_tail (c : Char) (l : List Char) (h : containsDD (c :: l) = false) :
    containsDD l = false := by
  cases l with
  | nil => rfl
  | cons y t =>
    simp only [containsDD, Bool.or_eq_false_iff] at h
    exact h.2

theorem rdropWhile_append_of_ne_nil (p : Char → Bool) (u v : List Char)
    (h : List.rdropWhile p v ≠ []) :
    List.rdropWhile p (u ++ v) = u ++ List.rdropWhile p v := by
  have hne : v.reverse.dropWhile p ≠ [] := by
    intro h0
    apply h
    show (v.reverse.dropWhile p).reverse = []
    rw [h0]
    rfl
  calc List.rdropWhile p (u ++ v)
      = ((u ++ v).reverse.dropWhile p).reverse := rfl
    _ = ((v.reverse ++ u.reverse).dropWhile p).reverse := by rw [List.reverse_append]
    _ = (v.reverse.dropWhile p ++ u.reverse).reverse := by
        rw [List.dropWhile_append, if_neg (by simpa [List.isEmpty_iff] using hne)]
    _ = u ++ (v.reverse.dropWhile p).reverse := by rw [List.reverse_append, List.reverse_reverse]
    _ = u ++ List.rdropWhile p v := rfl

theorem rdropWhile_eq_self_of_all (p : Char → Bool) (l : List Char)
    (h : ∀ c ∈ l, p c = false) : List.rdropWhile p l = l := by
  rw [List.rdropWhile_eq_self_iff]
  intro hl
  have := h _ (List.getLast_mem hl)
  simp [this]

theorem rdropWhile_ne_nil_of_mem (p : Char → Bool) (l : List Char) (a : Char)
    (ha : a ∈ l) (hpa : p a = false) : List.rdropWhile p l ≠ [] := by
  intro h0
  rw [List.rdropWhile_eq_nil_iff] at h0
  have := h0 a ha
  simp [hpa] at this

theorem trimDashes_eq (l : List Char) :
    trimDashes l = List.rdropWhile (· == '-') (l.dropWhile (· == '-')) := rfl

theorem trimDashes_cons_dash (l : List Char) : trimDashes ('-' :: l) = trimDashes l := by
  rw [trimDashes_eq, trimDashes_eq, List.dropWhile_cons_of_pos (by decide)]

theorem alnum_ne_dash (c : Char) (h : c.isAlphanum = true) : c ≠ '-' := by
  intro h0
  subst h0
  exact absurd h (by decide)

theorem containsDD_append_nodash : ∀ (u v : List Char), (∀ c ∈ u, (c == '-') = false) →
    containsDD (u ++ v) = containsDD v
  | [], v => fun _ => rfl
  | x :: u', v => fun h => by
    rw [List.cons_append,
      containsDD_cons_of_ne x _ (by simpa using h x (List.mem_cons_self _ _))]
    exact containsDD_append_nodash u' v (fun c hc => h c (List.mem_cons_of_mem _ hc))

theorem trimDashes_noDD :
    ∀ w : List Char, (∀ c ∈ w, c.isAlphanum = true ∨ c = '-') →
      containsDD w = false →
      trimDashes w = joinDash (splitRuns Char.isAlphanum w)
  | [] => fun _ _ => by
    rw [splitRuns_nil]
    rfl
  | c :: w' => fun hkept hnoDD => by
    by_cases hc : c = '-'
    · subst hc
      rw [trimDashes_cons_dash, splitRuns_cons_neg Char.isAlphanum _ _ (by decide)]
      exact trimDashes_noDD w' (fun x hx => hkept x (List.mem_cons_of_mem _ hx))
        (containsDD_false_tail _ _ hnoDD)
    · have hcal : Char.isAlphanum c = true := by
        rcases hkept c (List.mem_cons_self _ _) with h | h
        · exact h
        · exact absurd h hc
      have hLHS : trimDashes (c :: w') = List.rdropWhile (· == '-') (c :: w') := by
        rw [trimDashes_eq, List.dropWhile_cons_of_neg (by simp [hc])]
      rw [hLHS, splitRuns_cons_pos Char.isAlphanum c w' hcal]
      cases hdw : w'.dropWhile Char.isAlphanum with
      | nil =>
        have hall : ∀ x ∈ w', Char.isAlphanum x = true := List.dropWhile_eq_nil_iff.1 hdw
        rw [List.takeWhile_eq_self_iff.2 hall, splitRuns_nil,
          show joinDash [c :: w'] = c :: w' from rfl]
        apply rdropWhile_eq_self_of_all
        intro x hx
        rcases List.mem_cons.1 hx with h1 | h2
        · subst h1
          exact beq_eq_false_iff_ne.mpr hc
        · exact beq_eq_false_iff_ne.mpr (alnum_ne_dash x (hall x h2))
      | cons d0 dw2 =>
        have hd0 : Char.isAlphanum d0 = false := by
          have hh := List.head_dropWhile_not Char.isAlphanum w' (by rw [hdw]; simp)
          simp only [hdw, List.head_cons] at hh
          simpa using hh
        have hd0mem : d0 ∈ w' :=
          (List.dropWhile_sublist _).subset (by rw [hdw]; exact List.mem_cons_self _ _)
        have hd0dash : d0 = '-' := by
          rcases hkept d0 (List.mem_cons_of_mem _ hd0mem) with h | h
          · exact absurd h (by simp [hd0])
          · exact h
        subst hd0dash
        have hsplit : w' = w'.takeWhile Char.isAlphanum ++ '-' :: dw2 := by
          rw [← hdw, List.takeWhile_append_dropWhile]
        have htwall : ∀ x ∈ w'.takeWhile Char.isAlphanum, Char.isAlphanum x = true :=
          fun x hx => List.mem_takeWhile_imp hx
        cases dw2 with
        | nil =>
          rw [splitRuns_cons_neg Char.isAlphanum _ _ (by decide), splitRuns_nil,
            show joinDash [c :: w'.takeWhile Char.isAlphanum]
              = c :: w'.takeWhile Char.isAlphanum from rfl]
          have hweq : (c :: w') = (c :: w'.takeWhile Char.isAlphanum) ++ ['-'] := by
            rw [List.cons_append, ← hsplit]
          rw [hweq, List.rdropWhile_concat_pos _ _ _ (by decide)]
          apply rdropWhile_eq_self_of_all
          intro x hx
          rcases List.mem_cons.1 hx with h1 | h2
          · subst h1
            exact beq_eq_false_iff_ne.mpr hc
          · exact beq_eq_false_iff_ne.mpr (alnum_ne_dash x (htwall x h2))
        | cons a dw3 =>
          have hw_eq : c :: w' = (c :: w'.takeWhile Char.isAlphanum) ++ '-' :: a :: dw3 := by
            rw [List.cons_append, ← hsplit]
          have hnodash_prefix : ∀ x ∈ c :: w'.takeWhile Char.isAlphanum, (x == '-') = false := by
            intro x hx
            rcases List.mem_cons.1 hx with h1 | h2
            · subst h1
              exact beq_eq_false_iff_ne.mpr hc
            · exact beq_eq_false_iff_ne.mpr (alnum_ne_dash x (htwall x h2))
          have h0 : containsDD ('-' :: a :: dw3) = false := by
            have h1 : containsDD ((c :: w'.takeWhile Char.isAlphanum) ++ '-' :: a :: dw3)
                = false := by
              rw [← hw_eq]
              exact hnoDD
            rwa [containsDD_append_nodash _ _ hnodash_prefix] at h1
          have hna : a ≠ '-' := by
            intro ha
            subst ha
            simp [containsDD] at h0
          have haal : Char.isAlphanum a = true := by
            have hamem : a ∈ c :: w' := by
              rw [hw_eq]
              simp
            rcases hkept a hamem with h | h
            · exact h
            · exact absurd h hna
          have hnoDDa : containsDD (a :: dw3) = false := containsDD_false_tail _ _ h0
          have hkepta : ∀ x ∈ a :: dw3, Char.isAlphanum x = true ∨ x = '-' := by
            intro x hx
            apply hkept
            rw [hw_eq]
            exact List.mem_append_right _ (List.mem_cons_of_mem _ hx)
          have hIH := trimDashes_noDD (a :: dw3) hkepta hnoDDa
          have hIH2 : List.rdropWhile (· == '-') (a :: dw3)
              = joinDash (splitRuns Char.isAlphanum (a :: dw3)) := by
            rw [← hIH, trimDashes_eq, List.dropWhile_cons_of_neg (by simp [hna])]
          rw [splitRuns_cons_neg Char.isAlphanum _ _ (by decide)]
          have hne : splitRuns Char.isAlphanum (a :: dw3) ≠ [] := by
            rw [splitRuns_cons_pos Char.isAlphanum a dw3 haal]
            simp
          rw [joinDash_cons_of_ne_nil _ _ hne]
          have hvne : List.rdropWhile (· == '-') ('-' :: a :: dw3) ≠ [] :=
            rdropWhile_ne_nil_of_mem _ _ a (by simp) (beq_eq_false_iff_ne.mpr hna)
          have hvne2 : List.rdropWhile (· == '-') (a :: dw3) ≠ [] :=
            rdropWhile_ne_nil_of_mem _ _ a (by simp) (beq_eq_false_iff_ne.mpr hna)
          rw [hw_eq, rdropWhile_append_of_ne_nil _ _ _ hvne,
            show ('-' :: a :: dw3) = ['-'] ++ (a :: dw3) from rfl,
            rdropWhile_append_of_ne_nil _ _ _ hvne2, hIH2]
          rfl
termination_by w => w.length
decreasing_by
  all_goals simp only [List.length_cons]
  all_goals try omega
  all_goals
    have := congrArg List.length hsplit
    simp only [List.length_append, List.length_cons] at this
    omega

theorem trimCollapse_eq_join :
    ∀ w : List Char, (∀ c ∈ w, c.isAlphanum = true ∨ c = '-') →
      trimDashes (collapseLoop w) = joinDash (splitRuns Char.isAlphanum w)
  | w => fun hkept => by
    by_cases hdd : containsDD w = true
    · rw [collapseLoop_of_pos w hdd]
      have hkept2 : ∀ c ∈ replaceDD w, c.isAlphanum = true ∨ c = '-' :=
        fun c hc => hkept c (mem_replaceDD w c hc)
      rw [trimCollapse_eq_join (replaceDD w) hkept2,
        splitRuns_replaceDD Char.isAlphanum (by decide) w]
    · rw [collapseLoop_of_neg w (by simpa using hdd)]
      exact trimDashes_noDD w hkept (by simpa using hdd)
termination_by w => w.length
decreasing_by
  exact replaceDD_length_lt w hdd

/-! The characterization of `kebabChars`: it equals `kebabSpec`, the
alphanumeric runs of the lowercased input joined by single hyphens. -/

theorem kebabChars_eq_spec (l : List Char) : kebabChars l = kebabSpec l := by
  have hw : ∀ c ∈ joinDash (splitWsPieces ((l.map Char.toLower).map sanitize)),
      c.isAlphanum = true ∨ c = '-' := by
    intro c hc
    rcases mem_joinDash _ c hc with h | ⟨r, hr, hcr⟩
    · exact Or.inr h
    · have hp := splitRuns_pieces (fun ch => !ch.isWhitespace)
        ((l.map Char.toLower).map sanitize) r hr
      obtain ⟨hq, hmem⟩ := hp.2 c hcr
      obtain ⟨c0, _, rfl⟩ := List.mem_map.1 hmem
      by_cases hk : isKeptChar c0 = true
      · rw [show sanitize c0 = c0 from by simp [sanitize, hk]]
        rw [show sanitize c0 = c0 from by simp [sanitize, hk]] at hq
        simpa [isKeptChar, beq_iff_eq] using hk
      · rw [show sanitize c0 = ' ' from by simp [sanitize, hk]] at hq
        exact absurd hq (by decide)
  unfold kebabChars kebabSpec
  rw [trimCollapse_eq_join _ hw, splitRuns_alnum_join_ws,
    splitRuns_map Char.isAlphanum sanitize ?hid ?hp]
  case hid =>
    intro c h
    simp [sanitize, isKeptChar, h]
  case hp =>
    intro c
    by_cases hk : isKeptChar c = true
    · rw [show sanitize c = c from by simp [sanitize, hk]]
    · have h2 : c.isAlphanum = false := by
        simp only [isKeptChar, Bool.or_eq_true, not_or, Bool.not_eq_true] at hk
        exact hk.1
      rw [show sanitize c = ' ' from by simp [sanitize, hk], h2]
      decide

theorem kebabChars_chars (l : List Char) :
    ∀ c ∈ kebabChars l, (c.isAlphanum = true ∧ c.isUpper = false) ∨ c = '-' := by
  rw [kebabChars_eq_spec]
  simp only [kebabSpec]
  intro c hc
  rcases mem_joinDash _ c hc with h | ⟨r, hr, hcr⟩
  · exact Or.inr h
  · have hp := splitRuns_pieces Char.isAlphanum (l.map Char.toLower) r hr
    obtain ⟨hal, hmem⟩ := hp.2 c hcr
    obtain ⟨c0, _, rfl⟩ := List.mem_map.1 hmem
    exact Or.inl ⟨hal, char_toLower_not_upper c0⟩

theorem splitRuns_alnum_pieces (l : List Char) :
    ∀ r ∈ splitRuns Char.isAlphanum l, r ≠ [] ∧ ∀ c ∈ r, Char.isAlphanum c = true :=
  fun r hr => ⟨(splitRuns_pieces _ l r hr).1,
    fun c hc => ((splitRuns_pieces _ l r hr).2 c hc).1⟩

theorem splitRuns_joinDash (p : Char → Bool) (hdash : p '-' = false) :
    ∀ rs : List (List Char), (∀ r ∈ rs, r ≠ [] ∧ ∀ c ∈ r, p c = true) →
      splitRuns p (joinDash rs) = rs
  | [] => fun _ => by
    rw [show joinDash [] = [] from rfl, splitRuns_nil]
  | [r] => fun h => by
    rw [show joinDash [r] = r from rfl]
    exact splitRuns_all_pos p r (h r (by simp)).1 ((h r (by simp)).2)
  | r :: r2 :: rs => fun h => by
    rw [joinDash_cons_of_ne_nil _ _ (by simp),
      splitRuns_append_sep p '-' hdash,
      splitRuns_joinDash p hdash (r2 :: rs) (fun x hx => h x (List.mem_cons_of_mem _ hx)),
      splitRuns_all_pos p r (h r (List.mem_cons_self _ _)).1
        ((h r (List.mem_cons_self _ _)).2)]
    rfl

theorem map_toLower_kebab (l : List Char) :
    (kebabChars l).map Char.toLower = kebabChars l := by
  apply (List.map_congr_left ?_).trans (List.map_id _)
  intro c hc
  rcases kebabChars_chars l c hc with ⟨_, hu⟩ | rfl
  · apply char_toLower_of_not_upper
    intro h
    exact absurd ((char_isUpper_iff c).2 h) (by simp [hu])
  · decide

theorem kebabChars_idem (l : List Char) : kebabChars (kebabChars l) = kebabChars l := by
  rw [kebabChars_eq_spec (kebabChars l)]
  simp only [kebabSpec]
  rw [map_toLower_kebab l, kebabChars_eq_spec l]
  simp only [kebabSpec]
  rw [splitRuns_joinDash Char.isAlphanum (by decide) _
    (splitRuns_alnum_pieces (l.map Char.toLower))]

/-! Shape facts about the normalized output. -/

theorem headIsDash_append (u v : List Char) (h : u ≠ []) :
    headIsDash (u ++ v) = headIsDash u := by
  cases u with
  | nil => exact absurd rfl h
  | cons c u' => rfl

theorem headIsDash_joinDash (rs : List (List Char))
    (h : ∀ r ∈ rs, r ≠ [] ∧ ∀ c ∈ r, Char.isAlphanum c = true) :
    headIsDash (joinDash rs) = false := by
  cases rs with
  | nil => rfl
  | cons r rs' =>
    obtain ⟨hne, hall⟩ := h r (List.mem_cons_self _ _)
    cases r with
    | nil => exact absurd rfl hne
    | cons c r' =>
      have hcd : (c == '-') = false :=
        beq_eq_false_iff_ne.mpr (alnum_ne_dash c (hall c (List.mem_cons_self _ _)))
      cases rs' with
      | nil => simpa [joinDash, headIsDash] using hcd
      | cons r2 rs2 =>
        rw [joinDash_cons_of_ne_nil _ _ (by simp), List.cons_append]
        simpa [headIsDash] using hcd

theorem headIsDash_reverse_joinDash : ∀ rs : List (List Char),
    (∀ r ∈ rs, r ≠ [] ∧ ∀ c ∈ r, Char.isAlphanum c = true) →
    headIsDash (joinDash rs).reverse = false
  | [] => fun _ => rfl
  | [r] => fun h => by
    obtain ⟨hne, hall⟩ := h r (by simp)
    rw [show joinDash [r] = r from rfl]
    cases hrev : r.reverse with
    | nil => rfl
    | cons c t =>
      have hcr : c ∈ r := by
        rw [← List.mem_reverse, hrev]
        exact List.mem_cons_self _ _
      simp only [hrev, headIsDash]
      exact beq_eq_false_iff_ne.mpr (alnum_ne_dash c (hall c hcr))
  | r :: r2 :: rs => fun h => by
    rw [joinDash_cons_of_ne_nil _ _ (by simp), List.reverse_append, List.reverse_cons]
    have hJr : (joinDash (r2 :: rs)).reverse ≠ [] := by
      simpa using joinDash_ne_nil (r2 :: rs) (by simp)
        (fun x hx => (h x (List.mem_cons_of_mem _ hx)).1)
    rw [headIsDash_append _ _ (by simp), headIsDash_append _ _ hJr]
    exact headIsDash_reverse_joinDash (r2 :: rs) (fun x hx => h x (List.mem_cons_of_mem _ hx))

theorem containsDD_eq_false_of_nodash : ∀ l : List Char, (∀ c ∈ l, (c == '-') = false) →
    containsDD l = false
  | [] => fun _ => rfl
  | c :: t => fun h => by
    rw [containsDD_cons_of_ne c t (by simpa using h c (List.mem_cons_self _ _))]
    exact containsDD_eq_false_of_nodash t (fun x hx => h x (List.mem_cons_of_mem _ hx))

theorem containsDD_cons_dash_of_head (l : List Char) (hh : headIsDash l = false) :
    containsDD ('-' :: l) = containsDD l := by
  cases l with
  | nil => rfl
  | cons y t =>
    have hy : (y == '-') = false := by simpa [headIsDash] using hh
    simp [containsDD, hy]

theorem containsDD_joinDash : ∀ rs : List (List Char),
    (∀ r ∈ rs, r ≠ [] ∧ ∀ c ∈ r, Char.isAlphanum c = true) →
    containsDD (joinDash rs) = false
  | [] => fun _ => rfl
  | [r] => fun h => by
    rw [show joinDash [r] = r from rfl]
    exact containsDD_eq_false_of_nodash r
      (fun c hc => beq_eq_false_iff_ne.mpr (alnum_ne_dash c ((h r (by simp)).2 c hc)))
  | r :: r2 :: rs => fun h => by
    rw [joinDash_cons_of_ne_nil _ _ (by simp),
      containsDD_append_nodash r _
        (fun c hc => beq_eq_false_iff_ne.mpr
          (alnum_ne_dash c ((h r (List.mem_cons_self _ _)).2 c hc))),
      containsDD_cons_dash_of_head _
        (headIsDash_joinDash (r2 :: rs) (fun x hx => h x (List.mem_cons_of_mem _ hx)))]
    exact containsDD_joinDash (r2 :: rs) (fun x hx => h x (List.mem_cons_of_mem _ hx))

/-! Helper facts about the operational models. -/

theorem string_append_ne_empty (a b : String) (hb : b ≠ "") : a ++ b ≠ "" := by
  intro h
  apply hb
  have h2 := congrArg String.length h
  rw [String.length_append] at h2
  have hb0 : b.length = 0 := by
    have h3 : a.length + b.length = 0 := by simpa using h2
    omega
  cases b with
  | mk data =>
    cases data with
    | nil => rfl
    | cons c t => simp [String.length] at hb0

theorem parseU16_le_aux (ds : List Char) (v : Nat)
    (h : (if ds.isEmpty then (none : Option Nat)
          else if ds.all Char.isDigit then
            if ds.foldl (fun acc c => acc * 10 + (c.toNat - 48)) 0 ≤ 65535 then
              some (ds.foldl (fun acc c => acc * 10 + (c.toNat - 48)) 0)
            else none
          else none) = some v) : v ≤ 65535 := by
  split at h
  · exact absurd h (by simp)
  · split at h
    · split at h
      · rename_i hle
        have h2 := Option.some.inj h
        omega
      · exact absurd h (by simp)
    · exact absurd h (by simp)

theorem parseU16_le (s : String) (v : Nat) (h : parseU16 s = some v) : v ≤ 65535 :=
  parseU16_le_aux _ v h

theorem config_accept_loop_not_validation (env_path : PathBuf) :
    ∀ choices : List String, isValidationError (config_accept_loop env_path choices) = false
  | [] => rfl
  | c :: rest => by
    rw [config_accept_loop]
    split
    · rfl
    · split
      · rfl
      · exact config_accept_loop_not_validation env_path rest

theorem ensure_env_not_validation (env_path_option example_env_path_option : Option PathBuf)
    (copy_result : Except (IoErrorKind × String) Unit) (choices : List String) :
    isValidationError (ensure_env_file_exists env_path_option example_env_path_option
      copy_result choices) = false := by
  unfold ensure_env_file_exists
  cases env_path_option with
  | some p => rfl
  | none =>
    cases example_env_path_option with
    | none => rfl
    | some ex =>
      cases copy_result with
      | error e => rfl
      | ok u => exact config_accept_loop_not_validation _ choices

theorem isValidationError_error_congr {α β : Type} (e : AppError) :
    isValidationError (Except.error e : Except AppError α)
      = isValidationError (Except.error e : Except AppError β) := by
  cases e <;> rfl

theorem resolve_config_not_validation (env_path_option example_env_path_option : Option PathBuf)
    (copy_result : Except (IoErrorKind × String) Unit) (choices : List String)
    (envv : String → Option String) :
    isValidationError (resolve_config env_path_option example_env_path_option
      copy_result choices envv) = false := by
  unfold resolve_config
  split
  · rename_i e hE
    have h2 := ensure_env_not_validation env_path_option example_env_path_option
      copy_result choices
    rw [hE] at h2
    rw [← isValidationError_error_congr (α := PathBuf) (β := AppConfig) e]
    exact h2
  · rfl

theorem pollLoop_stop (poll : Nat → Except String Bool) (php : String) (m a : Nat)
    (h : m < a) : pollLoop poll php m a = (0, .ok ()) := by
  rw [pollLoop]
  rw [dif_pos h]

theorem pollLoop_run_true (poll : Nat → Except String Bool) (php : String) (m a : Nat)
    (h : ¬ m < a) (hp : poll a = .ok true) : pollLoop poll php m a = (1, .ok ()) := by
  rw [pollLoop]
  rw [dif_neg h, hp]

theorem pollLoop_run_false_last (poll : Nat → Except String Bool) (php : String) (m a : Nat)
    (h : ¬ m < a) (ha : a = m) (hp : poll a = .ok false) :
    pollLoop poll php m a = (1, .error (.Docker ("O contêiner PHP '" ++ php ++
      "' falhou ao iniciar após " ++ toString m ++ " tentativas."))) := by
  rw [pollLoop]
  rw [dif_neg h, hp]
  simp [ha]

theorem pollLoop_run_false_cont (poll : Nat → Except String Bool) (php : String) (m a : Nat)
    (h : ¬ m < a) (ha : ¬ a = m) (hp : poll a = .ok false) :
    pollLoop poll php m a
      = ((pollLoop poll php m (a + 1)).1 + 1, (pollLoop poll php m (a + 1)).2) := by
  rw [pollLoop]
  rw [dif_neg h, hp]
  simp [ha]

theorem pollLoop_run_err (poll : Nat → Except String Bool) (php : String) (m a : Nat)
    (h : ¬ m < a) (e : String) (hp : poll a = .error e) :
    pollLoop poll php m a
      = (1, .error (.Docker ("Falha ao verificar o status do contêiner: " ++ e))) := by
  rw [pollLoop]
  rw [dif_neg h, hp]

theorem apply_env_updates_first_failure (exec : String → Except String ExitStatus)
    (pname : String) :
    ∀ (rules : List String) (k : Nat) (hk : k < rules.length),
      (∀ i (hi : i < k), ∃ st : ExitStatus,
        exec (sed_command pname (rules.get ⟨i, Nat.lt_trans hi hk⟩)) = .ok st
          ∧ st.success = true) →
      ∀ st : ExitStatus, exec (sed_command pname (rules.get ⟨k, hk⟩)) = .ok st →
        st.success = false →
        apply_env_updates exec pname rules =
          { attempted := rules.take (k + 1), applied := rules.take k,
            result := .error (.Docker ("Falha ao atualizar o .env com: '"
              ++ rules.get ⟨k, hk⟩ ++ "'. Status: " ++ st.repr)) }
  | [], k, hk => by simp at hk
  | r :: rs, 0, hk => fun _ st hst hfail => by
    rw [apply_env_updates]
    simp only [List.get] at hst ⊢
    rw [hst]
    simp [hfail]
  | r :: rs, (k + 1), hk => fun hbefore st hst hfail => by
    obtain ⟨st0, h0, hs0⟩ := hbefore 0 (Nat.succ_pos k)
    rw [apply_env_updates]
    simp only [List.get] at h0 hst ⊢
    rw [h0]
    simp only [hs0, if_true]
    rw [apply_env_updates_first_failure exec pname rs k (Nat.lt_of_succ_lt_succ hk)
      (fun i hi => hbefore (i + 1) (Nat.succ_lt_succ hi)) st hst hfail]
    simp [List.take_succ_cons]

/-! Concrete fixtures for the witnesses. -/

def demoInput : ProjectInput :=
  { project_name := "demo-app", project_host := "demo-app.test",
    project_path := "../src/demo-app", laravel_version := "12" }

def demoConfig : AppConfig :=
  { php_container_name := "dev_container_php", node_container_name := "dev_container_node",
    db_root_password := "password", server_port := 8000, db_port := 3306 }

/-- An exec environment in which exactly the 4th rule's sed invocation exits
non-zero. -/
def execFailRule4 : String → Except String ExitStatus := fun c =>
  if c = sed_command "demo-app" "s/# DB_DATABASE=laravel/DB_DATABASE=demo-app/" then
    .ok { success := false, repr := "exit status: 1" }
  else .ok { success := true, repr := "exit status: 0" }

/-- A variable environment containing only an unparsable SERVER_PORT. -/
def envNotANumber : String → Option String := fun k =>
  if k = "SERVER_PORT" then some "not-a-number" else none

set_option maxRecDepth 10000

/-! The claims. -/

/-- C1: over the 7 substitution rules of the config patcher, if rule k is
the first whose sed invocation reports a non-success exit, the loop returns
a `Docker` error whose message names rule k, the invocations attempted are
exactly rules 1..k+1 (no rule after k is attempted), and the applied rules
are exactly rules 1..k — nothing already applied is undone. -/
theorem c1_patch_first_failure (input : ProjectInput) (config : AppConfig)
    (exec : String → Except String ExitStatus) (k : Nat)
    (hk : k < (env_updates input config).length)
    (hbefore : ∀ i (hi : i < k), ∃ st : ExitStatus,
      exec (sed_command input.project_name
        ((env_updates input config).get ⟨i, Nat.lt_trans hi hk⟩)) = .ok st
        ∧ st.success = true)
    (st : ExitStatus)
    (hst : exec (sed_command input.project_name ((env_updates input config).get ⟨k, hk⟩))
      = .ok st)
    (hfail : st.success = false) :
    (env_updates input config).length = 7 ∧
    apply_env_updates exec input.project_name (env_updates input config) =
      { attempted := (env_updates input config).take (k + 1),
        applied := (env_updates input config).take k,
        result := .error (.Docker ("Falha ao atualizar o .env com: '"
          ++ (env_updates input config).get ⟨k, hk⟩ ++ "'. Status: " ++ st.repr)) } :=
  ⟨by simp [env_updates],
    apply_env_updates_first_failure exec input.project_name
      (env_updates input config) k hk hbefore st hst hfail⟩

/-- C1 witness: rule 4 of 7 fails; rules 5–7 are not attempted and rules
1–3 stay applied. -/
theorem c1_patch_first_failure_witness :
    apply_env_updates execFailRule4 "demo-app" (env_updates demoInput demoConfig) =
      { attempted := (env_updates demoInput demoConfig).take 4,
        applied := (env_updates demoInput demoConfig).take 3,
        result := .error (.Docker ("Falha ao atualizar o .env com: '"
          ++ (env_updates demoInput demoConfig).get ⟨3, by decide⟩
          ++ "'. Status: " ++ ("exit status: 1" : String))) } :=
  (c1_patch_first_failure demoInput demoConfig execFailRule4 3 (by decide)
    (by
      intro i hi
      interval_cases i
      · exact ⟨{ success := true, repr := "exit status: 0" }, rfl, rfl⟩
      · exact ⟨{ success := true, repr := "exit status: 0" }, rfl, rfl⟩
      · exact ⟨{ success := true, repr := "exit status: 0" }, rfl, rfl⟩)
    { success := false, repr := "exit status: 1" } (by decide) rfl).2

/-- C2: after a not-running initial query and a successful environment
start, if all 3 poll queries (each preceded by a sleep) report not running,
the readiness step fails with a `Docker` error saying the container failed
to start after 3 attempts; and it succeeds as soon as poll query j reports
running, performing exactly j polls. -/
theorem c2_readiness_poll (php_container_name : String)
    (poll : Nat → Except String Bool) :
    ((∀ i, 1 ≤ i → i ≤ 3 → poll i = .ok false) →
      ensure_php_container_ready php_container_name (.ok false) (.ok true) poll
        = { upInvoked := true, statusPolls := 3, sleeps := 3,
            result := .error (.Docker ("O contêiner PHP '" ++ php_container_name
              ++ "' falhou ao iniciar após " ++ toString (3 : Nat) ++ " tentativas.")) })
  ∧ (∀ j, 1 ≤ j → j ≤ 3 → poll j = .ok true →
      (∀ i, 1 ≤ i → i < j → poll i = .ok false) →
      ensure_php_container_ready php_container_name (.ok false) (.ok true) poll
        = { upInvoked := true, statusPolls := j, sleeps := j, result := .ok () }) := by
  constructor
  · intro h
    have h1 := h 1 (by omega) (by omega)
    have h2 := h 2 (by omega) (by omega)
    have h3 := h 3 (by omega) (by omega)
    have efull : pollLoop poll php_container_name 3 1
        = (3, .error (.Docker ("O contêiner PHP '" ++ php_container_name
            ++ "' falhou ao iniciar após " ++ toString (3 : Nat) ++ " tentativas."))) := by
      rw [pollLoop_run_false_cont poll php_container_name 3 1 (by omega) (by omega) h1,
        pollLoop_run_false_cont poll php_container_name 3 2 (by omega) (by omega) h2,
        pollLoop_run_false_last poll php_container_name 3 3 (by omega) rfl h3]
    have hu : ensure_php_container_ready php_container_name (.ok false) (.ok true) poll
        = { upInvoked := true, statusPolls := (pollLoop poll php_container_name 3 1).1,
            sleeps := (pollLoop poll php_container_name 3 1).1,
            result := (pollLoop poll php_container_name 3 1).2 } := rfl
    rw [hu, efull]
  · intro j hj1 hj3 hjtrue hbefore
    interval_cases j
    · have efull : pollLoop poll php_container_name 3 1 = (1, .ok ()) :=
        pollLoop_run_true poll php_container_name 3 1 (by omega) hjtrue
      have hu : ensure_php_container_ready php_container_name (.ok false) (.ok true) poll
          = { upInvoked := true, statusPolls := (pollLoop poll php_container_name 3 1).1,
              sleeps := (pollLoop poll php_container_name 3 1).1,
              result := (pollLoop poll php_container_name 3 1).2 } := rfl
      rw [hu, efull]
    · have h1 := hbefore 1 (by omega) (by omega)
      have efull : pollLoop poll php_container_name 3 1 = (2, .ok ()) := by
        rw [pollLoop_run_false_cont poll php_container_name 3 1 (by omega) (by omega) h1,
          pollLoop_run_true poll php_container_name 3 2 (by omega) hjtrue]
      have hu : ensure_php_container_ready php_container_name (.ok false) (.ok true) poll
          = { upInvoked := true, statusPolls := (pollLoop poll php_container_name 3 1).1,
              sleeps := (pollLoop poll php_container_name 3 1).1,
              result := (pollLoop poll php_container_name 3 1).2 } := rfl
      rw [hu, efull]
    · have h1 := hbefore 1 (by omega) (by omega)
      have h2 := hbefore 2 (by omega) (by omega)
      have efull : pollLoop poll php_container_name 3 1 = (3, .ok ()) := by
        rw [pollLoop_run_false_cont poll php_container_name 3 1 (by omega) (by omega) h1,
          pollLoop_run_false_cont poll php_container_name 3 2 (by omega) (by omega) h2,
          pollLoop_run_true poll php_container_name 3 3 (by omega) hjtrue]
      have hu : ensure_php_container_ready php_container_name (.ok false) (.ok true) poll
          = { upInvoked := true, statusPolls := (pollLoop poll php_container_name 3 1).1,
              sleeps := (pollLoop poll php_container_name 3 1).1,
              result := (pollLoop poll php_container_name 3 1).2 } := rfl
      rw [hu, efull]

/-- C2 witness: with every poll reporting not running the step fails after
exactly 3 polls with the exhaustion message, and with the 2nd poll reporting
running it succeeds after exactly 2 polls. -/
theorem c2_readiness_poll_witness :
    ensure_php_container_ready "dev_container_php" (.ok false) (.ok true)
        (fun _ => .ok false)
      = { upInvoked := true, statusPolls := 3, sleeps := 3,
          result := .error (.Docker ("O contêiner PHP '" ++ "dev_container_php"
            ++ "' falhou ao iniciar após " ++ toString (3 : Nat) ++ " tentativas.")) }
  ∧ ensure_php_container_ready "dev_container_php" (.ok false) (.ok true)
        (fun i => .ok (i == 2))
      = { upInvoked := true, statusPolls := 2, sleeps := 2, result := .ok () } :=
  ⟨(c2_readiness_poll "dev_container_php" (fun _ => .ok false)).1 (fun _ _ _ => rfl),
    (c2_readiness_poll "dev_container_php" (fun i => .ok (i == 2))).2 2 (by omega)
      (by omega) rfl (fun i hi1 hi2 => by interval_cases i <;> rfl)⟩

/-- C3 counterexample: with neither the `.env` nor the `env.example` file
found, resolution fails with an `Io` error of kind `NotFound`, not with a
`Validation` error as the claim states. -/
theorem c3_counterexample :
    resolve_config none none (.ok ()) [] (fun _ => none)
      = .error (.Io .NotFound
          "Nem o .env, nem o . env.example foram encontrados. Verifique a estrutura do projeto.")
  ∧ isValidationError (resolve_config none none (.ok ()) [] (fun _ => none)) = false :=
  ⟨rfl, rfl⟩

/-- C3 (amended): when neither the config file nor the template file can be
found, resolution fails with an `Io` error of kind `NotFound`; and under no
condition does resolution fail with a `Validation` error. -/
theorem c3_neither_found_io_error :
    (∀ copy_result choices envv,
      resolve_config none none copy_result choices envv
        = .error (.Io .NotFound
            "Nem o .env, nem o . env.example foram encontrados. Verifique a estrutura do projeto."))
  ∧ (∀ env_path_option example_env_path_option copy_result choices envv,
      isValidationError (resolve_config env_path_option example_env_path_option
        copy_result choices envv) = false) :=
  ⟨fun _ _ _ => rfl, fun a b c d e => resolve_config_not_validation a b c d e⟩

/-- C4: project-identifier normalization is idempotent. -/
theorem c4_kebab_idempotent (s : String) :
    format_to_kebab_case (format_to_kebab_case s) = format_to_kebab_case s := by
  unfold format_to_kebab_case
  rw [show (String.mk (kebabChars s.data)).data = kebabChars s.data from rfl, kebabChars_idem]

/-- C5: the normalized identifier contains only lowercase ASCII letters,
digits and hyphens, has no leading hyphen, no trailing hyphen, and no two
consecutive hyphens, and it equals the maximal alphanumeric runs of the
lowercased input joined by single hyphens (`kebabSpec`): every maximal
interior run of non-alphanumeric characters becomes a single hyphen. -/
theorem c5_kebab_shape (s : String) :
    (format_to_kebab_case s).data.all
        (fun c => (c.isLower || c.isDigit) || c == '-') = true
  ∧ headIsDash (format_to_kebab_case s).data = false
  ∧ headIsDash (format_to_kebab_case s).data.reverse = false
  ∧ containsDD (format_to_kebab_case s).data = false
  ∧ (format_to_kebab_case s).data = kebabSpec s.data := by
  have hdata : (format_to_kebab_case s).data = kebabChars s.data := rfl
  have hpieces := splitRuns_alnum_pieces (s.data.map Char.toLower)
  refine ⟨?_, ?_, ?_, ?_, ?_⟩
  · rw [hdata, List.all_eq_true]
    intro c hc
    rcases kebabChars_chars s.data c hc with ⟨hal, hup⟩ | rfl
    · exact char_alnum_not_upper_good c hal hup
    · decide
  · rw [hdata, kebabChars_eq_spec]
    simp only [kebabSpec]
    exact headIsDash_joinDash _ hpieces
  · rw [hdata, kebabChars_eq_spec]
    simp only [kebabSpec]
    exact headIsDash_reverse_joinDash _ hpieces
  · rw [hdata, kebabChars_eq_spec]
    simp only [kebabSpec]
    exact containsDD_joinDash _ hpieces
  · rw [hdata, kebabChars_eq_spec]

/-- C6: if the very first status query reports the container running, the
readiness step succeeds immediately: no environment start, no sleep, no
further status query, whatever the start command and later polls would do. -/
theorem c6_ready_immediately (php_container_name : String)
    (up_result : Except String Bool) (poll : Nat → Except String Bool) :
    ensure_php_container_ready php_container_name (.ok true) up_result poll
      = { upInvoked := false, statusPolls := 0, sleeps := 0, result := .ok () } := rfl

/-- C7: when reading the alias file succeeds and its content contains the
host as a substring, registration succeeds with no privilege-escalated
invocation (hence no write), whatever that invocation would have returned. -/
theorem c7_hosts_substring_no_write (input : ProjectInput) (content : String)
    (sudo_status : Except (IoErrorKind × String) ExitStatus)
    (h : containsSub content.data input.project_host.data = true) :
    update_etc_hosts input (.ok content) sudo_status
      = { sudoInvoked := false, result := .ok () } := by
  have hu : update_etc_hosts input (.ok content) sudo_status
      = (if containsSub content.data input.project_host.data = true then
          { sudoInvoked := false, result := .ok () }
        else etc_hosts_write sudo_status) := rfl
  rw [hu, if_pos h]

/-- C7 witness: an alias file already holding `127.0.0.1 demo-app.test`. -/
theorem c7_hosts_substring_no_write_witness :
    containsSub ("127.0.0.1 demo-app.test").data ("demo-app.test").data = true
  ∧ update_etc_hosts demoInput (.ok "127.0.0.1 demo-app.test")
      (.ok { success := true, repr := "exit status: 0" })
      = { sudoInvoked := false, result := .ok () } :=
  ⟨by decide,
    c7_hosts_substring_no_write demoInput "127.0.0.1 demo-app.test"
      (.ok { success := true, repr := "exit status: 0" }) (by decide)⟩

/-- C8: for identifier `demo-app` and host `demo-app.test`, the generated
virtual-host content contains `ServerName demo-app.test` exactly once and
`DocumentRoot /var/www/html/demo-app/public` exactly once. -/
theorem c8_vhost_fragments_once :
    countOccs ("ServerName demo-app.test").data (vhost_content demoInput).data = 1
  ∧ countOccs ("DocumentRoot /var/www/html/demo-app/public").data
      (vhost_content demoInput).data = 1 := by
  constructor <;> decide

/-- C9: resolved settings always have concrete non-empty values — the
container names and the password are non-empty strings, the ports are valid
u16 values — and each setting falls back to its compiled-in default when
its variable is missing, empty, or (for ports) unparsable; in particular
`SERVER_PORT=not-a-number` yields the default port 8000, and resolution
succeeds whatever the environment values whenever the env file step
succeeded. -/
theorem c9_settings_concrete (envv : String → Option String) :
    ((get_app_config envv).php_container_name ≠ ""
      ∧ (get_app_config envv).node_container_name ≠ ""
      ∧ (get_app_config envv).db_root_password ≠ ""
      ∧ (get_app_config envv).server_port ≤ 65535
      ∧ (get_app_config envv).db_port ≤ 65535)
  ∧ ((envv "SERVER_PORT" = none
        ∨ ∃ s, envv "SERVER_PORT" = some s ∧ parseU16 (strTrim s) = none) →
      (get_app_config envv).server_port = DEFAULT_SERVER_PORT)
  ∧ ((envv "DB_PORT" = none
        ∨ ∃ s, envv "DB_PORT" = some s ∧ parseU16 (strTrim s) = none) →
      (get_app_config envv).db_port = DEFAULT_DB_PORT)
  ∧ ((envv "CONTAINER_NAME" = none
        ∨ ∃ s, envv "CONTAINER_NAME" = some s ∧ strTrim s = "") →
      (get_app_config envv).php_container_name = DEFAULT_CONTAINER_NAME ++ "_php"
        ∧ (get_app_config envv).node_container_name = DEFAULT_CONTAINER_NAME ++ "_node")
  ∧ ((envv "DB_ROOT_PASSWORD" = none
        ∨ ∃ s, envv "DB_ROOT_PASSWORD" = some s ∧ strTrim s = "") →
      (get_app_config envv).db_root_password = DEFAULT_DB_ROOT_PASSWORD)
  ∧ (envv "SERVER_PORT" = some "not-a-number" →
      (get_app_config envv).server_port = 8000)
  ∧ (∀ env_path_option example_env_path_option copy_result choices p,
      ensure_env_file_exists env_path_option example_env_path_option copy_result choices
        = .ok p →
      resolve_config env_path_option example_env_path_option copy_result choices envv
        = .ok (get_app_config envv)) := by
  have hphp : (get_app_config envv).php_container_name
      = (match envv "CONTAINER_NAME" with
         | some name => if strTrim name ≠ "" then strTrim name else DEFAULT_CONTAINER_NAME
         | none => DEFAULT_CONTAINER_NAME) ++ "_php" := rfl
  have hnode : (get_app_config envv).node_container_name
      = (match envv "CONTAINER_NAME" with
         | some name => if strTrim name ≠ "" then strTrim name else DEFAULT_CONTAINER_NAME
         | none => DEFAULT_CONTAINER_NAME) ++ "_node" := rfl
  have hpw : (get_app_config envv).db_root_password
      = (match envv "DB_ROOT_PASSWORD" with
         | some password => if strTrim password ≠ "" then strTrim password
           else DEFAULT_DB_ROOT_PASSWORD
         | none => DEFAULT_DB_ROOT_PASSWORD) := rfl
  have hsp : (get_app_config envv).server_port
      = (match envv "SERVER_PORT" with
         | some port_str => match parseU16 (strTrim port_str) with
           | some port => port
           | none => DEFAULT_SERVER_PORT
         | none => DEFAULT_SERVER_PORT) := rfl
  have hdp : (get_app_config envv).db_port
      = (match envv "DB_PORT" with
         | some port_str => match parseU16 (strTrim port_str) with
           | some port => port
           | none => DEFAULT_DB_PORT
         | none => DEFAULT_DB_PORT) := rfl
  refine ⟨⟨?_, ?_, ?_, ?_, ?_⟩, ?_, ?_, ?_, ?_, ?_, ?_⟩
  · rw [hphp]
    exact string_append_ne_empty _ _ (by decide)
  · rw [hnode]
    exact string_append_ne_empty _ _ (by decide)
  · rw [hpw]
    cases h : envv "DB_ROOT_PASSWORD" with
    | none => decide
    | some s =>
      by_cases hs : strTrim s = ""
      · simp only [hs]
        decide
      · simp only [hs]
        rw [if_pos hs]
        exact hs
  · rw [hsp]
    cases h : envv "SERVER_PORT" with
    | none => decide
    | some s =>
      cases hp : parseU16 (strTrim s) with
      | none =>
        simp only [hp]
        decide
      | some v =>
        simp only [hp]
        exact parseU16_le (strTrim s) v hp
  · rw [hdp]
    cases h : envv "DB_PORT" with
    | none => decide
    | some s =>
      cases hp : parseU16 (strTrim s) with
      | none =>
        simp only [hp]
        decide
      | some v =>
        simp only [hp]
        exact parseU16_le (strTrim s) v hp
  · rintro (h | ⟨s, hs, hps⟩)
    · rw [hsp, h]
    · rw [hsp, hs]
      simp only [hps]
  · rintro (h | ⟨s, hs, hps⟩)
    · rw [hdp, h]
    · rw [hdp, hs]
      simp only [hps]
  · rintro (h | ⟨s, hs, hse⟩)
    · rw [hphp, hnode, h]
      exact ⟨rfl, rfl⟩
    · rw [hphp, hnode, hs]
      simp only [hse]
      exact ⟨rfl, rfl⟩
  · rintro (h | ⟨s, hs, hse⟩)
    · rw [hpw, h]
    · rw [hpw, hs]
      simp only [hse]
      decide
  · intro h
    rw [hsp, h]
    decide
  · intro e x cr ch p h
    unfold resolve_config
    rw [h]

/-- C9 witness: `SERVER_PORT=not-a-number` resolves to the default port
8000 and resolution still succeeds. -/
theorem c9_settings_concrete_witness :
    (get_app_config envNotANumber).server_port = 8000
  ∧ resolve_config (some { dir := "", file := ".env" }) none (.ok ()) [] envNotANumber
      = .ok (get_app_config envNotANumber) := by
  have h := c9_settings_concrete envNotANumber
  exact ⟨h.2.2.2.2.2.1 (by decide), h.2.2.2.2.2.2 _ _ _ _ _ rfl⟩

/-- C10: a failed initial status query is treated exactly like a
not-running container — the start invocation and poll loop are still
performed; and a status-query failure during the poll loop aborts
immediately with a `Docker` error after exactly the polls made so far. -/
theorem c10_initial_query_failure_tolerated (php_container_name e : String)
    (up_result : Except String Bool) (poll : Nat → Except String Bool) :
    (ensure_php_container_ready php_container_name (.error e) up_result poll
        = ensure_php_container_ready php_container_name (.ok false) up_result poll
      ∧ (ensure_php_container_ready php_container_name (.error e) up_result poll).upInvoked
          = true)
  ∧ (∀ j, 1 ≤ j → j ≤ 3 →
      (∀ i, 1 ≤ i → i < j → poll i = .ok false) →
      ∀ e2, poll j = .error e2 →
      ensure_php_container_ready php_container_name (.error e) (.ok true) poll
        = { upInvoked := true, statusPolls := j, sleeps := j,
            result := .error (.Docker
              ("Falha ao verificar o status do contêiner: " ++ e2)) }) := by
  refine ⟨⟨rfl, ?_⟩, ?_⟩
  · cases up_result with
    | error e3 => rfl
    | ok b => cases b <;> rfl
  · intro j hj1 hj3 hbefore e2 hje
    interval_cases j
    · have efull := pollLoop_run_err poll php_container_name 3 1 (by omega) e2 hje
      have hu : ensure_php_container_ready php_container_name (.error e) (.ok true) poll
          = { upInvoked := true, statusPolls := (pollLoop poll php_container_name 3 1).1,
              sleeps := (pollLoop poll php_container_name 3 1).1,
              result := (pollLoop poll php_container_name 3 1).2 } := rfl
      rw [hu, efull]
    · have h1 := hbefore 1 (by omega) (by omega)
      have efull : pollLoop poll php_container_name 3 1
          = (2, .error (.Docker ("Falha ao verificar o status do contêiner: " ++ e2))) := by
        rw [pollLoop_run_false_cont poll php_container_name 3 1 (by omega) (by omega) h1,
          pollLoop_run_err poll php_container_name 3 2 (by omega) e2 hje]
      have hu : ensure_php_container_ready php_container_name (.error e) (.ok true) poll
          = { upInvoked := true, statusPolls := (pollLoop poll php_container_name 3 1).1,
              sleeps := (pollLoop poll php_container_name 3 1).1,
              result := (pollLoop poll php_container_name 3 1).2 } := rfl
      rw [hu, efull]
    · have h1 := hbefore 1 (by omega) (by omega)
      have h2 := hbefore 2 (by omega) (by omega)
      have efull : pollLoop poll php_container_name 3 1
          = (3, .error (.Docker ("Falha ao verificar o status do contêiner: " ++ e2))) := by
        rw [pollLoop_run_false_cont poll php_container_name 3 1 (by omega) (by omega) h1,
          pollLoop_run_false_cont poll php_container_name 3 2 (by omega) (by omega) h2,
          pollLoop_run_err poll php_container_name 3 3 (by omega) e2 hje]
      have hu : ensure_php_container_ready php_container_name (.error e) (.ok true) poll
          = { upInvoked := true, statusPolls := (pollLoop poll php_container_name 3 1).1,
              sleeps := (pollLoop poll php_container_name 3 1).1,
              result := (pollLoop poll php_container_name 3 1).2 } := rfl
      rw [hu, efull]

/-- C10 witness: the initial query fails, the start still runs, and a query
failure at poll 2 aborts with the status-check `Docker` error. -/
theorem c10_initial_query_failure_tolerated_witness :
    (ensure_php_container_ready "dev_container_php" (.error "io error") (.ok true)
        (fun i => if i = 2 then .error "broken pipe" else .ok false)).upInvoked = true
  ∧ ensure_php_container_ready "dev_container_php" (.error "io error") (.ok true)
        (fun i => if i = 2 then .error "broken pipe" else .ok false)
      = { upInvoked := true, statusPolls := 2, sleeps := 2,
          result := .error (.Docker
            ("Falha ao verificar o status do contêiner: " ++ "broken pipe")) } :=
  ⟨(c10_initial_query_failure_tolerated "dev_container_php" "io error" (.ok true)
      (fun i => if i = 2 then .error "broken pipe" else .ok false)).1.2,
    (c10_initial_query_failure_tolerated "dev_container_php" "io error" (.ok true)
      (fun i => if i = 2 then .error "broken pipe" else .ok false)).2 2 (by omega)
      (by omega) (fun i hi1 hi2 => by interval_cases i <;> rfl) "broken pipe" rfl⟩

end LaravelMaker
